import Mathlib

/-! # Step-plan execution controller (vigir_step_control)

A shallow embedding of `StepControllerPlugin` (src/src/step_controller_plugin.cpp) and of
the part of `StepController::update` (src/src/step_controller.cpp) that drives it.

Conventions of the embedding.

* The C++ `int` counters and indices are `Int`.  The source computes `last + 1` only while
  `last` is below `next_step_index_needed_`, which cannot overflow, and
  `first_changeable_step_index - 1`, whose signed overflow at the least `int` is undefined in
  C++ and is not modelled.
* `plugin_mutex_` is a `boost::shared_mutex`, which is not recursive.  Every member function
  that locks it is given a flag `held`: whether the calling thread already owns the mutex
  exclusively at the moment of the call.  A call made with `held` blocks for ever; the
  embedding returns `none` for a call that does not return.  Other threads are not modelled.
* The virtual hooks `initWalk` and `executeStep` are implemented by derived plugins that are
  not part of the sources; they are parameters.  `executeStep` has the signature of the
  source, `bool executeStep(const msgs::Step&)`: the dispatch capability answers ok or fail
  and leaves the fields of the controller alone.  Within one call of `process` the steps
  handed over have pairwise different indices, so a back-end that keeps a state of its own
  still answers, during that call, as a function of the step.
* `process` also returns the list of calls it made to `executeStep` and to
  `StepQueue::removeSteps`, in order, so that statements about what was dispatched can be
  made.  Calls to the logger are left out.
* `StepQueue` and the messages are not among the sources; they follow the spec (sections 3
  and 4.1, and for a plan that does not start at index 0 section 8).
-/

namespace vigir_step_control

/-- The enumeration `StepControllerState` with the six names printed by `toString`. -/
inductive StepControllerState where
  | NOT_READY
  | READY
  | ACTIVE
  | PAUSED
  | FINISHED
  | FAILED
deriving DecidableEq, Repr

open StepControllerState

/-- Modelled from the spec: the message `msgs::Step`, an execution unit identified by its
integer `step_index`; `content` stands for the remaining fields of the message. -/
structure Step where
  step_index : Int
  content : Nat
deriving DecidableEq, Repr

/-- Modelled from the spec: the message `msgs::StepPlan`, an ordered sequence of steps. -/
structure StepPlan where
  steps : List Step
deriving DecidableEq, Repr

/-- Modelled from the spec: the message `msgs::ExecuteStepPlanFeedback` with the seven fields of
the feedback snapshot (the time stamp of the header is left out). -/
structure ExecuteStepPlanFeedback where
  controller_state : StepControllerState
  last_performed_step_index : Int
  currently_executing_step_index : Int
  first_changeable_step_index : Int
  queue_size : Int
  first_queued_step_index : Int
  last_queued_step_index : Int
deriving DecidableEq, Repr

/-- Modelled from the spec: the class `StepQueue` (its header and implementation are not among
the sources), a mapping from index to step.  The entries are kept in a list; `getStep` finds
the entry stored under an index, and a list sorted by index stays sorted under the
operations below. -/
structure StepQueue where
  steps : List Step
deriving DecidableEq, Repr

namespace StepQueue

/-- Modelled from the spec: `StepQueue::reset` clears to the empty state. -/
def reset (_q : StepQueue) : StepQueue := ⟨[]⟩

/-- Modelled from the spec: `StepQueue::empty`, the query `isEmpty()`. -/
def empty (q : StepQueue) : Bool := q.steps.isEmpty

/-- Modelled from the spec: `StepQueue::size`. -/
def size (q : StepQueue) : Nat := q.steps.length

/-- Modelled from the spec: `StepQueue::getStep`, lookup by index; `none` is not found. -/
def getStep (q : StepQueue) (index : Int) : Option Step :=
  q.steps.find? (fun s => decide (s.step_index = index))

/-- Modelled from the spec: `StepQueue::firstStepIndex`, the lowest index stored.  The spec
leaves the value for an empty queue open (a sentinel); it is -1 here. -/
def firstStepIndex (q : StepQueue) : Int :=
  match q.steps with
  | [] => -1
  | s :: rest => rest.foldl (fun m t => min m t.step_index) s.step_index

/-- Modelled from the spec: `StepQueue::lastStepIndex`, the highest index stored, with the same
sentinel -1 for an empty queue. -/
def lastStepIndex (q : StepQueue) : Int :=
  match q.steps with
  | [] => -1
  | s :: rest => rest.foldl (fun m t => max m t.step_index) s.step_index

/-- Modelled from the spec: `StepQueue::removeSteps(from, to)` garbage-collects the entries
with index in `[from, to]`; indices outside the bounds of the queue are ignored. -/
def removeSteps (q : StepQueue) (from_step_index to_step_index : Int) : StepQueue :=
  ⟨q.steps.filter (fun s =>
    !(decide (from_step_index ≤ s.step_index) && decide (s.step_index ≤ to_step_index)))⟩

/-- Writing one step under its index: an entry queued at that index is overwritten, otherwise
the step is put at its place in index order. -/
def insertStep : List Step → Step → List Step
  | [], s => [s]
  | t :: ts, s =>
    if s.step_index < t.step_index then s :: t :: ts
    else if s.step_index = t.step_index then s :: ts
    else t :: insertStep ts s

/-- Modelled from the spec: which steps of an incoming plan `merge` writes.  Indices at or
above `firstChangeableIndex` overwrite whatever was queued at that index, and indices beyond
the previous `lastIndex` of the queue are appended (every index is beyond the end of an empty
queue). -/
def writes (q : StepQueue) (min_step_index : Int) (s : Step) : Bool :=
  decide (min_step_index ≤ s.step_index) || (q.empty || decide (q.lastStepIndex < s.step_index))

/-- Modelled from the spec: `StepQueue::updateStepPlan`, the operation `merge(plan,
firstChangeableIndex) -> changed`.  An empty plan is a no-op returning false.  An empty queue
takes up a plan only when the plan starts at index 0 (section 3: a submitted plan starts at
0; section 8: a plan starting at index 1, never index 0, does not bring the controller out of
`READY`, which `preProcess` allows only while the queue is empty); a plan whose lowest index
is not 0 is then a no-op returning false.  Otherwise entries queued strictly below
`firstChangeableIndex` are left untouched; the steps of the plan selected by `writes` are
written; the result tells whether any content changed. -/
def updateStepPlan (q : StepQueue) (step_plan : StepPlan) (min_step_index : Int) :
    Bool × StepQueue :=
  if step_plan.steps.isEmpty then (false, q)
  else if q.empty && decide ((⟨step_plan.steps⟩ : StepQueue).firstStepIndex ≠ 0) then (false, q)
  else
    let merged : StepQueue :=
      ⟨step_plan.steps.foldl
        (fun acc s => if writes q min_step_index s then insertStep acc s else acc) q.steps⟩
    (decide (merged ≠ q), merged)

end StepQueue

/-- The member fields of `StepControllerPlugin` that the state machine works on. -/
structure StepControllerPlugin where
  state_ : StepControllerState
  next_step_index_needed_ : Int
  last_step_index_sent_ : Int
  feedback_state_ : ExecuteStepPlanFeedback
  step_queue_ : StepQueue
deriving DecidableEq, Repr

/-- The lock guard at the top of a member function, `boost::unique_lock` or
`boost::shared_lock` on `plugin_mutex_`: the body runs once the mutex is acquired.  When the
calling thread already holds the mutex exclusively (`held`), the acquisition never succeeds
and the call does not return. -/
def withLock {α : Type} (held : Bool) (body : α) : Option α :=
  if held then none else some body

namespace StepControllerPlugin

/-- The getter `getState`. -/
def getState (held : Bool) (p : StepControllerPlugin) : Option StepControllerState :=
  withLock held p.state_

/-- The getter `getNextStepIndexNeeded`. -/
def getNextStepIndexNeeded (held : Bool) (p : StepControllerPlugin) : Option Int :=
  withLock held p.next_step_index_needed_

/-- The getter `getLastStepIndexSent`. -/
def getLastStepIndexSent (held : Bool) (p : StepControllerPlugin) : Option Int :=
  withLock held p.last_step_index_sent_

/-- The getter `getFeedbackState`. -/
def getFeedbackState (held : Bool) (p : StepControllerPlugin) : Option ExecuteStepPlanFeedback :=
  withLock held p.feedback_state_

/-- The setter `setState`: it writes the state and mirrors it into the feedback. -/
def setState (held : Bool) (p : StepControllerPlugin) (state : StepControllerState) :
    Option StepControllerPlugin :=
  withLock held
    { p with state_ := state,
             feedback_state_ := { p.feedback_state_ with controller_state := state } }

/-- The setter `setNextStepIndexNeeded`. -/
def setNextStepIndexNeeded (held : Bool) (p : StepControllerPlugin) (index : Int) :
    Option StepControllerPlugin :=
  withLock held { p with next_step_index_needed_ := index }

/-- The setter `setLastStepIndexSent`. -/
def setLastStepIndexSent (held : Bool) (p : StepControllerPlugin) (index : Int) :
    Option StepControllerPlugin :=
  withLock held { p with last_step_index_sent_ := index }

/-- The setter `setFeedbackState`. -/
def setFeedbackState (held : Bool) (p : StepControllerPlugin)
    (feedback : ExecuteStepPlanFeedback) : Option StepControllerPlugin :=
  withLock held { p with feedback_state_ := feedback }

/-- The member `updateQueueFeedback`: refreshes the three queue-derived feedback fields. -/
def updateQueueFeedback (held : Bool) (p : StepControllerPlugin) : Option StepControllerPlugin :=
  withLock held
    { p with feedback_state_ :=
        { p.feedback_state_ with
            queue_size := (p.step_queue_.size : Int),
            first_queued_step_index := p.step_queue_.firstStepIndex,
            last_queued_step_index := p.step_queue_.lastStepIndex } }

/-- The member `reset`.  The local `feedback` is a freshly constructed message (state field
and queue fields at their zero default) in which the three progress indices are set to -1. -/
def reset (held : Bool) (p : StepControllerPlugin) : Option StepControllerPlugin := do
  let p := { p with step_queue_ := p.step_queue_.reset }
  let feedback : ExecuteStepPlanFeedback :=
    { controller_state := NOT_READY,
      last_performed_step_index := -1,
      currently_executing_step_index := -1,
      first_changeable_step_index := -1,
      queue_size := 0,
      first_queued_step_index := 0,
      last_queued_step_index := 0 }
  let p ← setFeedbackState held p feedback
  let p ← setNextStepIndexNeeded held p (-1)
  let p ← setLastStepIndexSent held p (-1)
  setState held p READY

/-- The member `stop`: it takes `plugin_mutex_` exclusively and, holding it, calls `reset`. -/
def stop (held : Bool) (p : StepControllerPlugin) : Option StepControllerPlugin := do
  let _lock ← withLock held ()
  reset true p

/-- The member `updateStepPlan`. -/
def updateStepPlan (held : Bool) (p : StepControllerPlugin) (step_plan : StepPlan) :
    Option StepControllerPlugin := do
  if step_plan.steps.isEmpty then
    return p
  let state ← getState held p
  let p ← (if state = FINISHED ∨ state = FAILED then reset held p else pure p)
  let state ← getState held p
  if state = READY ∨ state = ACTIVE then
    let feedback ← getFeedbackState held p
    let merged := p.step_queue_.updateStepPlan step_plan feedback.first_changeable_step_index
    let p := { p with step_queue_ := merged.2 }
    if merged.1 then
      let p ← (if state = ACTIVE then
                 setLastStepIndexSent held p (feedback.first_changeable_step_index - 1)
               else pure p)
      updateQueueFeedback held p
    else
      return p
  else
    return p

/-- The member `preProcess`; `initWalk` is the virtual hook of the derived plugin. -/
def preProcess (initWalk : StepControllerPlugin → StepControllerPlugin) (held : Bool)
    (p : StepControllerPlugin) : Option StepControllerPlugin := do
  let state ← getState held p
  if state = READY ∧ !p.step_queue_.empty then
    if p.step_queue_.firstStepIndex ≠ 0 then
      setState held p FAILED
    else
      return initWalk p
  else
    return p

/-- One entry of the record that `process` keeps of its calls to the execution back-end and
to the garbage collection of the queue. -/
inductive Event where
  | executeStep (step : Step)
  | removeSteps (from_step_index to_step_index : Int)
deriving DecidableEq, Repr

/-- The steps handed to `executeStep`, in the order of the calls. -/
def dispatched : List Event → List Step
  | [] => []
  | Event.executeStep s :: es => s :: dispatched es
  | Event.removeSteps _ _ :: es => dispatched es

/-- The while loop of `process`.  `fuel` bounds the number of evaluations of the loop
condition (`none` when it runs out); `log` is the record of calls made so far. -/
def processLoop (executeStep : Step → Bool) (held : Bool) :
    Nat → StepControllerPlugin → List Event → Option (StepControllerPlugin × List Event)
  | 0, _, _ => none
  | fuel + 1, p, log => do
    let last ← getLastStepIndexSent held p
    let needed ← getNextStepIndexNeeded held p
    if last < needed then
      if p.step_queue_.empty then
        let p ← setState held p FAILED
        return (p, log)
      let next_step_index := (← getLastStepIndexSent held p) + 1
      match p.step_queue_.getStep next_step_index with
      | none =>
        let p ← setState held p FAILED
        return (p, log)
      | some step =>
        let log := log ++ [Event.executeStep step]
        if !executeStep step then
          let p ← setState held p FAILED
          return (p, log)
        let p ← setLastStepIndexSent held p next_step_index
        let feedback ← getFeedbackState held p
        if 0 ≤ feedback.last_performed_step_index then
          let p := { p with step_queue_ :=
                       p.step_queue_.removeSteps 0 feedback.last_performed_step_index }
          let log := log ++ [Event.removeSteps 0 feedback.last_performed_step_index]
          let p ← updateQueueFeedback held p
          processLoop executeStep held fuel p log
        else
          let p ← updateQueueFeedback held p
          processLoop executeStep held fuel p log
    else
      return (p, log)

/-- The member `process`; `executeStep` is the virtual hook of the derived plugin.  Every
passage through the loop body that continues raises `last_step_index_sent_` by one, so the
loop condition is evaluated at most `next - last + 1` times, which is the fuel given. -/
def process (executeStep : Step → Bool) (held : Bool) (p : StepControllerPlugin) :
    Option (StepControllerPlugin × List Event) := do
  let state ← getState held p
  if state = ACTIVE then
    processLoop executeStep held
      ((p.next_step_index_needed_ - p.last_step_index_sent_).toNat + 1) p []
  else
    return (p, [])

/-- One tick: the part of `StepController::update` that acts on a loaded plugin, `preProcess`
followed by `process`, both called with `plugin_mutex_` free.  Publishing the feedback and
resolving the action server only read the plugin; the hook `postProcess` of the derived
plugin, called at the end of `update`, is not part of the tick. -/
def tick (initWalk : StepControllerPlugin → StepControllerPlugin) (executeStep : Step → Bool)
    (p : StepControllerPlugin) : Option (StepControllerPlugin × List Event) := do
  let p ← preProcess initWalk false p
  process executeStep false p

/-- A sequence of `n` ticks, keeping the state only. -/
def ticks (initWalk : StepControllerPlugin → StepControllerPlugin) (executeStep : Step → Bool) :
    Nat → StepControllerPlugin → Option StepControllerPlugin
  | 0, p => some p
  | n + 1, p => do
    let r ← tick initWalk executeStep p
    ticks initWalk executeStep n r.1

/-- The controller that `reset` leaves behind when it runs with the mutex free: every field
is overwritten, so the result does not depend on the state before. -/
def freshlyReset : StepControllerPlugin :=
  { state_ := READY,
    next_step_index_needed_ := -1,
    last_step_index_sent_ := -1,
    feedback_state_ :=
      { controller_state := READY,
        last_performed_step_index := -1,
        currently_executing_step_index := -1,
        first_changeable_step_index := -1,
        queue_size := 0,
        first_queued_step_index := 0,
        last_queued_step_index := 0 },
    step_queue_ := ⟨[]⟩ }

/-- The state written by `updateQueueFeedback` with the mutex free. -/
def refreshQueueFeedback (p : StepControllerPlugin) : StepControllerPlugin :=
  { p with feedback_state_ :=
      { p.feedback_state_ with
          queue_size := (p.step_queue_.size : Int),
          first_queued_step_index := p.step_queue_.firstStepIndex,
          last_queued_step_index := p.step_queue_.lastStepIndex } }

/-- The state written by `setState(FAILED)` with the mutex free. -/
def markFailed (p : StepControllerPlugin) : StepControllerPlugin :=
  { p with state_ := FAILED,
           feedback_state_ := { p.feedback_state_ with controller_state := FAILED } }

/-- The queue after the garbage collection that follows a successful dispatch. -/
def collected (p : StepControllerPlugin) : StepQueue :=
  if 0 ≤ p.feedback_state_.last_performed_step_index then
    p.step_queue_.removeSteps 0 p.feedback_state_.last_performed_step_index
  else p.step_queue_

/-- The state at the end of a passage through the loop body of `process` in which the
dispatch succeeded: counter raised, queue garbage-collected, queue feedback refreshed. -/
def afterSend (p : StepControllerPlugin) : StepControllerPlugin :=
  { p with last_step_index_sent_ := p.last_step_index_sent_ + 1,
           step_queue_ := collected p,
           feedback_state_ :=
             { p.feedback_state_ with
                 queue_size := ((collected p).size : Int),
                 first_queued_step_index := (collected p).firstStepIndex,
                 last_queued_step_index := (collected p).lastStepIndex } }

/-- The record of the garbage collection that follows a successful dispatch. -/
def collectLog (p : StepControllerPlugin) : List Event :=
  if 0 ≤ p.feedback_state_.last_performed_step_index then
    [Event.removeSteps 0 p.feedback_state_.last_performed_step_index]
  else []

end StepControllerPlugin

/-- The consecutive indices `a, a+1, ..., a+k-1`. -/
def indicesFrom (a : Int) : Nat → List Int
  | 0 => []
  | k + 1 => a :: indicesFrom (a + 1) k

/-- Modelled from the spec: the hook `initWalk` of a derived plugin, which is not among the
sources; on admission the controller transitions to `ACTIVE`. -/
def initWalkToActive (p : StepControllerPlugin) : StepControllerPlugin :=
  { p with state_ := ACTIVE,
           feedback_state_ := { p.feedback_state_ with controller_state := ACTIVE } }

/-- A queue holding the steps with the given indices and contents (test fixture). -/
def queueOf (l : List (Int × Nat)) : StepQueue := ⟨l.map (fun x => ⟨x.1, x.2⟩)⟩

/-- A controller with the given state, needed index, sent index, last performed index, first
changeable index and queue (test fixture); the other feedback fields are 0. -/
def controllerOf (st : StepControllerState) (needed sent performed changeable : Int)
    (l : List (Int × Nat)) : StepControllerPlugin :=
  { state_ := st,
    next_step_index_needed_ := needed,
    last_step_index_sent_ := sent,
    feedback_state_ :=
      { controller_state := st, last_performed_step_index := performed,
        currently_executing_step_index := 0, first_changeable_step_index := changeable,
        queue_size := 0, first_queued_step_index := 0, last_queued_step_index := 0 },
    step_queue_ := queueOf l }

/-- The constructor of `StepControllerPlugin`: the state starts as `NOT_READY`, the queue is
new, and `reset` is called with the mutex free.  The two counters are not initialised before
`reset` writes them; `needed` and `sent` stand for whatever they hold. -/
def StepControllerPlugin.construct (needed sent : Int) : Option StepControllerPlugin :=
  StepControllerPlugin.reset false
    { state_ := NOT_READY,
      next_step_index_needed_ := needed,
      last_step_index_sent_ := sent,
      feedback_state_ :=
        { controller_state := NOT_READY, last_performed_step_index := 0,
          currently_executing_step_index := 0, first_changeable_step_index := 0,
          queue_size := 0, first_queued_step_index := 0, last_queued_step_index := 0 },
      step_queue_ := ⟨[]⟩ }

/-- An execution back-end that accepts every step (test fixture). -/
def acceptAll : Step → Bool := fun _ => true

/-- An execution back-end that rejects the step with index `c` and accepts the others (test
fixture). -/
def rejectAt (c : Int) : Step → Bool := fun s => decide (s.step_index ≠ c)

/-- An `ACTIVE` controller in the middle of a walk (test fixture): the steps 0..12 are queued,
the steps up to 2 have been sent, step 3 is needed, and the feedback of the back-end has the
first changeable index 10. -/
def walkWithLateChangeable : StepControllerPlugin :=
  controllerOf ACTIVE 3 2 0 10
    [(0, 0), (1, 0), (2, 0), (3, 0), (4, 0), (5, 0), (6, 0), (7, 0), (8, 0), (9, 0), (10, 0),
      (11, 0), (12, 0)]

/-- A revised plan for the steps 10..12 (test fixture). -/
def revisionFromTen : StepPlan := ⟨[⟨10, 1⟩, ⟨11, 1⟩, ⟨12, 1⟩]⟩

/-- A run from construction to an admitted walk (test fixture): the plan with the steps 0
and 1 is submitted and one tick follows, with the hook `initWalkToActive`; nothing is needed
yet, so nothing is dispatched. -/
def admittedWalk : Option StepControllerPlugin :=
  ((StepControllerPlugin.construct 0 0).bind
    (fun p => StepControllerPlugin.updateStepPlan false p ⟨[⟨0, 0⟩, ⟨1, 0⟩]⟩)).bind
    (fun p => (StepControllerPlugin.tick initWalkToActive acceptAll p).map Prod.fst)

/-- The run `admittedWalk` followed by a revision of the plan (test fixture): the steps 0 and
1 with a new content and a further step 2. -/
def revisedWalk : Option StepControllerPlugin :=
  admittedWalk.bind
    (fun p => StepControllerPlugin.updateStepPlan false p ⟨[⟨0, 7⟩, ⟨1, 7⟩, ⟨2, 7⟩]⟩)

end vigir_step_control

namespace vigir_step_control

open StepControllerState StepControllerPlugin

/-! ## The mutex -/

@[simp] theorem withLock_free {α : Type} (x : α) : withLock false x = some x := rfl

@[simp] theorem withLock_held {α : Type} (x : α) : withLock true x = (none : Option α) := rfl

/-! ## `reset` and `stop` -/

theorem reset_free (p : StepControllerPlugin) : reset false p = some freshlyReset := by
  simp [reset, setFeedbackState, setNextStepIndexNeeded, setLastStepIndexSent, setState,
    freshlyReset, StepQueue.reset]

theorem reset_held (p : StepControllerPlugin) : reset true p = none := by
  simp [reset, setFeedbackState]

/-- C1 (defect of the code): `stop` does not return.  It takes `plugin_mutex_` exclusively and
then calls `reset`, whose first setter `setFeedbackState` tries to take the same
non-recursive mutex again; the calling thread blocks there, so no state with `READY` and an
empty queue is ever produced by `stop`, from whatever state it is called. -/
theorem C1_stop_never_returns (held : Bool) (p : StepControllerPlugin) : stop held p = none := by
  cases held <;> simp [stop, reset_held]

/-! ## The loop of `process`, with the mutex free -/

theorem processLoop_zero (ex : Step → Bool) (p : StepControllerPlugin) (log : List Event) :
    processLoop ex false 0 p log = none := rfl

theorem processLoop_succ (ex : Step → Bool) (n : Nat) (p : StepControllerPlugin)
    (log : List Event) :
    processLoop ex false (n + 1) p log =
      if p.last_step_index_sent_ < p.next_step_index_needed_ then
        if p.step_queue_.empty then some (markFailed p, log)
        else
          match p.step_queue_.getStep (p.last_step_index_sent_ + 1) with
          | none => some (markFailed p, log)
          | some step =>
            if ex step then
              processLoop ex false n (afterSend p)
                (log ++ [Event.executeStep step] ++ collectLog p)
            else some (markFailed p, log ++ [Event.executeStep step])
      else some (p, log) := by
  simp only [processLoop, getLastStepIndexSent, getNextStepIndexNeeded, setState,
    setLastStepIndexSent, getFeedbackState, updateQueueFeedback, withLock_free,
    Option.some_bind, Option.bind_eq_bind, bind_pure_comp, pure, Option.pure_def, Option.map_some']
  by_cases h1 : p.last_step_index_sent_ < p.next_step_index_needed_
  · by_cases h2 : p.step_queue_.empty = true
    · simp [h1, h2, markFailed]
    · cases h3 : p.step_queue_.getStep (p.last_step_index_sent_ + 1) with
      | none => simp [h1, h2, markFailed]
      | some step =>
        by_cases h4 : ex step = true
        · by_cases h5 : 0 ≤ p.feedback_state_.last_performed_step_index
          · simp [h1, h2, h4, h5, afterSend, collected, collectLog]
          · simp [h1, h2, h4, h5, afterSend, collected, collectLog]
        · simp [h1, h2, h4, markFailed]
  · simp [h1]

theorem process_free (ex : Step → Bool) (p : StepControllerPlugin) :
    process ex false p =
      if p.state_ = ACTIVE then
        processLoop ex false
          ((p.next_step_index_needed_ - p.last_step_index_sent_).toNat + 1) p []
      else some (p, []) := by
  simp only [process, getState, withLock_free, Option.some_bind, Option.bind_eq_bind, pure,
    Option.pure_def]

/-! ## The record of calls -/

theorem dispatched_append (l₁ l₂ : List Event) :
    dispatched (l₁ ++ l₂) = dispatched l₁ ++ dispatched l₂ := by
  induction l₁ with
  | nil => rfl
  | cons e es ih => cases e <;> simp [dispatched, ih]

theorem dispatched_collectLog (p : StepControllerPlugin) : dispatched (collectLog p) = [] := by
  unfold collectLog
  split <;> rfl

/-! ## The queue -/

theorem getStep_index {q : StepQueue} {i : Int} {s : Step} (h : q.getStep i = some s) :
    s.step_index = i := by
  have := List.find?_some h
  simpa using this

theorem getStep_removeSteps (q : StepQueue) (a b i : Int) :
    (q.removeSteps a b).getStep i = if a ≤ i ∧ i ≤ b then none else q.getStep i := by
  obtain ⟨l⟩ := q
  simp only [StepQueue.removeSteps, StepQueue.getStep]
  induction l with
  | nil => simp
  | cons t ts ih =>
    simp only [List.filter_cons]
    by_cases hk : (!(decide (a ≤ t.step_index) && decide (t.step_index ≤ b))) = true
    · rw [if_pos hk]
      simp only [List.find?_cons]
      by_cases ht : t.step_index = i
      · have hd : decide (t.step_index = i) = true := by simpa using ht
        have hr : ¬ (a ≤ i ∧ i ≤ b) := by
          subst ht
          intro hab
          simp [hab.1, hab.2] at hk
        simp only [hd, if_neg hr]
      · have hd : decide (t.step_index = i) = false := by simpa using ht
        simp only [hd]
        exact ih
    · rw [if_neg hk, ih]
      simp only [List.find?_cons]
      by_cases ht : t.step_index = i
      · have hr : a ≤ i ∧ i ≤ b := by
          subst ht
          simpa using hk
        simp only [if_pos hr]
      · have hd : decide (t.step_index = i) = false := by simpa using ht
        simp only [hd]

theorem getStep_collected {p : StepControllerPlugin} {i : Int} {s : Step}
    (h : (collected p).getStep i = some s) : p.step_queue_.getStep i = some s := by
  unfold collected at h
  split at h
  · rw [getStep_removeSteps] at h
    split at h
    · exact absurd h (by simp)
    · exact h
  · exact h

/-- The loop of `process` with enough fuel returns; unless it ends in `FAILED` it keeps the
state, raises the counter to the needed index and has dispatched the queued steps with the
indices in between, in ascending order. -/
theorem processLoop_spools (ex : Step → Bool) :
    ∀ (n : Nat) (p : StepControllerPlugin) (log : List Event),
      (p.next_step_index_needed_ - p.last_step_index_sent_).toNat < n →
      ∃ p' log', processLoop ex false n p log = some (p', log') ∧
        (p'.state_ = FAILED ∨
          (p'.state_ = p.state_ ∧
            p'.last_step_index_sent_ = max p.last_step_index_sent_ p.next_step_index_needed_ ∧
            ∃ l, dispatched log' = dispatched log ++ l ∧
              l.map Step.step_index =
                indicesFrom (p.last_step_index_sent_ + 1)
                  (p.next_step_index_needed_ - p.last_step_index_sent_).toNat ∧
              ∀ s ∈ l, p.step_queue_.getStep s.step_index = some s)) := by
  intro n
  induction n with
  | zero => intro p log h; omega
  | succ n ih =>
    intro p log hfuel
    rw [processLoop_succ]
    by_cases h1 : p.last_step_index_sent_ < p.next_step_index_needed_
    · rw [if_pos h1]
      by_cases h2 : p.step_queue_.empty = true
      · rw [if_pos h2]
        exact ⟨_, _, rfl, Or.inl rfl⟩
      · rw [if_neg h2]
        cases h3 : p.step_queue_.getStep (p.last_step_index_sent_ + 1) with
        | none => exact ⟨_, _, rfl, Or.inl rfl⟩
        | some step =>
          by_cases h4 : ex step = true
          · simp only [h4, if_true]
            have hfuel2 : ((afterSend p).next_step_index_needed_ -
                (afterSend p).last_step_index_sent_).toNat < n := by
              simp only [afterSend]
              omega
            obtain ⟨p', log', hrun, hres⟩ :=
              ih (afterSend p) (log ++ [Event.executeStep step] ++ collectLog p) hfuel2
            refine ⟨p', log', hrun, ?_⟩
            rcases hres with hf | ⟨hst, hlast, l, hl, hidx, hq⟩
            · exact Or.inl hf
            · refine Or.inr ⟨hst, ?_, step :: l, ?_, ?_, ?_⟩
              · rw [hlast]
                simp only [afterSend]
                omega
              · rw [hl]
                simp [dispatched_append, dispatched_collectLog, dispatched]
              · obtain ⟨k, hk⟩ : ∃ k, (p.next_step_index_needed_ -
                    p.last_step_index_sent_).toNat = k + 1 := ⟨_, (Nat.succ_pred_eq_of_pos
                      (by omega)).symm⟩
                have hk2 : ((afterSend p).next_step_index_needed_ -
                    (afterSend p).last_step_index_sent_).toNat = k := by
                  simp only [afterSend]
                  omega
                rw [hk2] at hidx
                rw [hk]
                simp only [List.map_cons, indicesFrom, getStep_index h3]
                rw [hidx]
                rfl
              · intro s hs
                rcases List.mem_cons.mp hs with rfl | hs
                · rw [getStep_index h3]
                  exact h3
                · exact getStep_collected (hq s hs)
          · simp only [h4]
            exact ⟨_, _, rfl, Or.inl rfl⟩
    · rw [if_neg h1]
      refine ⟨p, log, rfl, Or.inr ⟨rfl, ?_, [], by simp, ?_, by simp⟩⟩
      · omega
      · have : (p.next_step_index_needed_ - p.last_step_index_sent_).toNat = 0 := by omega
        rw [this]
        rfl

/-- C2: one call of `process` on an `ACTIVE` controller returns, and it ends either in
`FAILED`, or in `ACTIVE` with `last_step_index_sent_` equal to the maximum of its old value and
`next_step_index_needed_`, having handed to `executeStep` exactly the queued steps with the
indices old last + 1, ..., needed, once each and in ascending order (none when the old
counter is not below the needed index). -/
theorem C2_process_spools (ex : Step → Bool) (p : StepControllerPlugin)
    (hactive : p.state_ = ACTIVE) :
    ∃ p' log, process ex false p = some (p', log) ∧
      (p'.state_ = FAILED ∨
        (p'.state_ = ACTIVE ∧
          p'.last_step_index_sent_ = max p.last_step_index_sent_ p.next_step_index_needed_ ∧
          (dispatched log).map Step.step_index =
            indicesFrom (p.last_step_index_sent_ + 1)
              (p.next_step_index_needed_ - p.last_step_index_sent_).toNat ∧
          ∀ s ∈ dispatched log, p.step_queue_.getStep s.step_index = some s)) := by
  rw [process_free, if_pos hactive]
  obtain ⟨p', log', hrun, hres⟩ :=
    processLoop_spools ex _ p [] (Nat.lt_succ_self _)
  refine ⟨p', log', hrun, ?_⟩
  rcases hres with hf | ⟨hst, hlast, l, hl, hidx, hq⟩
  · exact Or.inl hf
  · have hl2 : dispatched log' = l := by simpa [dispatched] using hl
    exact Or.inr ⟨hst.trans hactive, hlast, hl2 ▸ hidx, hl2 ▸ hq⟩

theorem getStep_of_empty {q : StepQueue} (h : q.empty = true) (i : Int) : q.getStep i = none := by
  obtain ⟨l⟩ := q
  cases l with
  | nil => rfl
  | cons t ts => simp [StepQueue.empty] at h

theorem getStep_collected_of_lt (p : StepControllerPlugin) {i : Int}
    (h : p.feedback_state_.last_performed_step_index < i) :
    (collected p).getStep i = p.step_queue_.getStep i := by
  unfold collected
  split
  · rw [getStep_removeSteps, if_neg]
    omega
  · rfl

/-! ## `preProcess` -/

theorem preProcess_free (iw : StepControllerPlugin → StepControllerPlugin)
    (p : StepControllerPlugin) :
    preProcess iw false p =
      some (if p.state_ = READY ∧ p.step_queue_.empty = false then
              (if p.step_queue_.firstStepIndex ≠ 0 then markFailed p else iw p)
            else p) := by
  simp only [preProcess, getState, setState, withLock_free, Option.some_bind,
    Option.bind_eq_bind, pure, Option.pure_def, Bool.not_eq_true']
  by_cases h : p.state_ = READY ∧ p.step_queue_.empty = false
  · by_cases h0 : p.step_queue_.firstStepIndex = 0
    · simp [h, h0]
    · simp [h, h0, markFailed]
  · simp only [if_neg h]

/-- C3: for a controller in `READY` with a non-empty queue, `preProcess` sets the state to
`FAILED` without calling `initWalk` when the first queued index is not 0 (nothing but the
state and its mirror in the feedback changes), and otherwise hands over to `initWalk`, so the
state becomes `ACTIVE` as soon as that hook sets it; when the state is not `READY` or the
queue is empty, `preProcess` changes nothing. -/
theorem C3_preProcess_admission (iw : StepControllerPlugin → StepControllerPlugin)
    (p : StepControllerPlugin) :
    (p.state_ = READY → p.step_queue_.empty = false → p.step_queue_.firstStepIndex ≠ 0 →
      ∃ p', preProcess iw false p = some p' ∧ p'.state_ = FAILED ∧
        p'.feedback_state_.controller_state = FAILED ∧ p' = markFailed p ∧
        p'.step_queue_ = p.step_queue_ ∧
        p'.last_step_index_sent_ = p.last_step_index_sent_ ∧
        p'.next_step_index_needed_ = p.next_step_index_needed_) ∧
    (p.state_ = READY → p.step_queue_.empty = false → p.step_queue_.firstStepIndex = 0 →
      preProcess iw false p = some (iw p) ∧
      ((iw p).state_ = ACTIVE →
        ∃ p', preProcess iw false p = some p' ∧ p'.state_ = ACTIVE)) ∧
    (p.state_ ≠ READY ∨ p.step_queue_.empty = true → preProcess iw false p = some p) := by
  refine ⟨?_, ?_, ?_⟩
  · intro h1 h2 h3
    refine ⟨markFailed p, ?_, rfl, rfl, rfl, rfl, rfl, rfl⟩
    rw [preProcess_free, if_pos ⟨h1, h2⟩, if_pos h3]
  · intro h1 h2 h3
    have h : preProcess iw false p = some (iw p) := by
      rw [preProcess_free, if_pos ⟨h1, h2⟩, if_neg (not_not.mpr h3)]
    exact ⟨h, fun ha => ⟨iw p, h, ha⟩⟩
  · intro h
    rw [preProcess_free, if_neg]
    rintro ⟨h1, h2⟩
    rcases h with h | h
    · exact h h1
    · rw [h2] at h
      exact Bool.noConfusion h

/-! ## Gap detection -/

/-- The loop of `process` run from a controller whose queue holds every index between the
counter and `m` but not `m` itself. -/
theorem processLoop_gap (ex : Step → Bool) (m : Int) :
    ∀ (n : Nat) (p : StepControllerPlugin) (log : List Event),
      (p.next_step_index_needed_ - p.last_step_index_sent_).toNat < n →
      p.feedback_state_.last_performed_step_index ≤ p.last_step_index_sent_ →
      p.last_step_index_sent_ < m → m ≤ p.next_step_index_needed_ →
      p.step_queue_.getStep m = none →
      (∀ i, p.last_step_index_sent_ < i → i < m →
        ∃ s, p.step_queue_.getStep i = some s ∧ ex s = true) →
      ∃ p' log', processLoop ex false n p log = some (p', log') ∧
        p'.state_ = FAILED ∧ p'.last_step_index_sent_ = m - 1 ∧
        ∃ l, dispatched log' = dispatched log ++ l ∧
          l.map Step.step_index =
            indicesFrom (p.last_step_index_sent_ + 1) (m - 1 - p.last_step_index_sent_).toNat := by
  intro n
  induction n with
  | zero => intro p log h; omega
  | succ n ih =>
    intro p log hfuel hperf hm1 hm2 habsent hpresent
    rw [processLoop_succ, if_pos (by omega)]
    have hstop : p.step_queue_.getStep (p.last_step_index_sent_ + 1) = none →
        ∃ p' log', some (markFailed p, log) = some (p', log') ∧
          p'.state_ = FAILED ∧ p'.last_step_index_sent_ = m - 1 ∧
          ∃ l, dispatched log' = dispatched log ++ l ∧
            l.map Step.step_index =
              indicesFrom (p.last_step_index_sent_ + 1)
                (m - 1 - p.last_step_index_sent_).toNat := by
      intro hnone
      have hm : m = p.last_step_index_sent_ + 1 := by
        by_contra hne
        obtain ⟨s, hs, _⟩ := hpresent (p.last_step_index_sent_ + 1) (by omega) (by omega)
        rw [hnone] at hs
        exact Option.noConfusion hs
      refine ⟨_, _, rfl, rfl, ?_, [], by simp, ?_⟩
      · simp only [markFailed]
        omega
      · have : (m - 1 - p.last_step_index_sent_).toNat = 0 := by omega
        rw [this]
        rfl
    by_cases h2 : p.step_queue_.empty = true
    · rw [if_pos h2]
      exact hstop (getStep_of_empty h2 _)
    · rw [if_neg h2]
      cases h3 : p.step_queue_.getStep (p.last_step_index_sent_ + 1) with
      | none => exact hstop h3
      | some step =>
        have hm : p.last_step_index_sent_ + 1 < m := by
          have hne : m ≠ p.last_step_index_sent_ + 1 := by
            intro he
            rw [he, h3] at habsent
            exact Option.noConfusion habsent
          omega
        obtain ⟨s, hs, hex⟩ := hpresent (p.last_step_index_sent_ + 1) (by omega) hm
        rw [h3] at hs
        cases hs
        simp only [hex, if_true]
        obtain ⟨p', log', hrun, hst, hlast, l, hl, hidx⟩ :=
          ih (afterSend p) (log ++ [Event.executeStep step] ++ collectLog p)
            (by simp only [afterSend]; omega)
            (by simp only [afterSend]; omega)
            (by simp only [afterSend]; omega)
            (by simp only [afterSend]; omega)
            (by
              show (collected p).getStep m = none
              rw [getStep_collected_of_lt p (by omega)]
              exact habsent)
            (by
              intro i hi1 hi2
              show ∃ s, (collected p).getStep i = some s ∧ ex s = true
              have hi1 : p.last_step_index_sent_ + 1 < i := hi1
              rw [getStep_collected_of_lt p (by omega)]
              exact hpresent i (by omega) hi2)
        refine ⟨p', log', hrun, hst, hlast, step :: l, ?_, ?_⟩
        · rw [hl]
          simp [dispatched_append, dispatched_collectLog, dispatched]
        · obtain ⟨k, hk⟩ : ∃ k, (m - 1 - p.last_step_index_sent_).toNat = k + 1 :=
            ⟨_, (Nat.succ_pred_eq_of_pos (by omega)).symm⟩
          have hk2 : (m - 1 - (afterSend p).last_step_index_sent_).toNat = k := by
            simp only [afterSend]
            omega
          rw [hk2] at hidx
          rw [hk]
          simp only [List.map_cons, indicesFrom, getStep_index h3]
          rw [hidx]
          rfl

/-- C4: an `ACTIVE` controller whose last performed index is not beyond the counter, whose
queue holds every index between `last_step_index_sent_` and `m` but not `m`, with `m` at most
the needed index and with `executeStep` succeeding on the queued steps below `m`: `process`
returns in `FAILED` with `last_step_index_sent_ = m - 1`, having dispatched exactly the
indices old last + 1, ..., m - 1 (so none at or above `m`). -/
theorem C4_gap_detected (ex : Step → Bool) (p : StepControllerPlugin) (m : Int)
    (hactive : p.state_ = ACTIVE)
    (hperf : p.feedback_state_.last_performed_step_index ≤ p.last_step_index_sent_)
    (hm1 : p.last_step_index_sent_ < m) (hm2 : m ≤ p.next_step_index_needed_)
    (habsent : p.step_queue_.getStep m = none)
    (hpresent : ∀ i, p.last_step_index_sent_ < i → i < m →
      ∃ s, p.step_queue_.getStep i = some s ∧ ex s = true) :
    ∃ p' log, process ex false p = some (p', log) ∧
      p'.state_ = FAILED ∧ p'.last_step_index_sent_ = m - 1 ∧
      (dispatched log).map Step.step_index =
        indicesFrom (p.last_step_index_sent_ + 1) (m - 1 - p.last_step_index_sent_).toNat := by
  rw [process_free, if_pos hactive]
  obtain ⟨p', log', hrun, hst, hlast, l, hl, hidx⟩ :=
    processLoop_gap ex m _ p [] (Nat.lt_succ_self _) hperf hm1 hm2 habsent hpresent
  have hl2 : dispatched log' = l := by simpa [dispatched] using hl
  exact ⟨p', log', hrun, hst, hlast, hl2 ▸ hidx⟩

/-! ## General facts about the loop of `process` -/

theorem executeStep_not_mem_collectLog (p : StepControllerPlugin) (t : Step) :
    Event.executeStep t ∉ collectLog p := by
  unfold collectLog
  split <;> simp

/-- Whatever the outcome, the loop dispatches consecutive indices starting right after the
counter, taken from the queue, and the queue only shrinks. -/
theorem processLoop_log (ex : Step → Bool) :
    ∀ (n : Nat) (p : StepControllerPlugin) (log : List Event)
      (p' : StepControllerPlugin) (log' : List Event),
      processLoop ex false n p log = some (p', log') →
      (∃ l, dispatched log' = dispatched log ++ l ∧
        l.map Step.step_index = indicesFrom (p.last_step_index_sent_ + 1) l.length ∧
        ∀ s ∈ l, p.step_queue_.getStep s.step_index = some s) ∧
      (∀ i s, p'.step_queue_.getStep i = some s → p.step_queue_.getStep i = some s) := by
  intro n
  induction n with
  | zero => intro p log p' log' h; simp [processLoop_zero] at h
  | succ n ih =>
    intro p log p' log' h
    rw [processLoop_succ] at h
    have hstop : some (markFailed p, log) = some (p', log') →
        (∃ l, dispatched log' = dispatched log ++ l ∧
          l.map Step.step_index = indicesFrom (p.last_step_index_sent_ + 1) l.length ∧
          ∀ s ∈ l, p.step_queue_.getStep s.step_index = some s) ∧
        (∀ i s, p'.step_queue_.getStep i = some s → p.step_queue_.getStep i = some s) := by
      intro h
      simp only [Option.some.injEq, Prod.mk.injEq] at h
      obtain ⟨rfl, rfl⟩ := h
      exact ⟨⟨[], by simp, rfl, by simp⟩, fun i s hs => hs⟩
    by_cases h1 : p.last_step_index_sent_ < p.next_step_index_needed_
    · rw [if_pos h1] at h
      by_cases h2 : p.step_queue_.empty = true
      · rw [if_pos h2] at h
        exact hstop h
      · rw [if_neg h2] at h
        cases h3 : p.step_queue_.getStep (p.last_step_index_sent_ + 1) with
        | none =>
          rw [h3] at h
          exact hstop h
        | some step =>
          rw [h3] at h
          by_cases h4 : ex step = true
          · simp only [h4, if_true] at h
            obtain ⟨⟨l, hl, hidx, hq⟩, hshrink⟩ := ih _ _ _ _ h
            refine ⟨⟨step :: l, ?_, ?_, ?_⟩, ?_⟩
            · rw [hl]
              simp [dispatched_append, dispatched_collectLog, dispatched]
            · simp only [List.map_cons, List.length_cons, indicesFrom, getStep_index h3]
              rw [hidx]
              rfl
            · intro s hs
              rcases List.mem_cons.mp hs with rfl | hs
              · rw [getStep_index h3]
                exact h3
              · exact getStep_collected (hq s hs)
            · intro i s hs
              exact getStep_collected (hshrink i s hs)
          · simp only [h4] at h
            simp only [Bool.false_eq_true, if_false, Option.some.injEq, Prod.mk.injEq] at h
            obtain ⟨rfl, rfl⟩ := h
            refine ⟨⟨[step], ?_, ?_, ?_⟩, fun i s hs => hs⟩
            · simp [dispatched_append, dispatched]
            · simp [indicesFrom, getStep_index h3]
            · intro s hs
              rw [List.mem_singleton.mp hs, getStep_index h3]
              exact h3
    · rw [if_neg h1] at h
      simp only [Option.some.injEq, Prod.mk.injEq] at h
      obtain ⟨rfl, rfl⟩ := h
      exact ⟨⟨[], by simp, rfl, by simp⟩, fun i s hs => hs⟩

/-- With enough fuel the loop of `process` returns. -/
theorem processLoop_returns (ex : Step → Bool) (n : Nat) (p : StepControllerPlugin)
    (log : List Event)
    (h : (p.next_step_index_needed_ - p.last_step_index_sent_).toNat < n) :
    ∃ r, processLoop ex false n p log = some r := by
  obtain ⟨p', log', hrun, _⟩ := processLoop_spools ex n p log h
  exact ⟨_, hrun⟩

/-- The member `process` returns when it is called with the mutex free. -/
theorem process_returns (ex : Step → Bool) (p : StepControllerPlugin) :
    ∃ r, process ex false p = some r := by
  rw [process_free]
  split
  · exact processLoop_returns ex _ p [] (Nat.lt_succ_self _)
  · exact ⟨_, rfl⟩

/-! ## Dispatch failure -/

theorem processLoop_dispatch_failure (ex : Step → Bool) :
    ∀ (n : Nat) (p : StepControllerPlugin) (log : List Event)
      (p' : StepControllerPlugin) (log' : List Event),
      (∀ t, Event.executeStep t ∈ log → ex t = true ∧ t.step_index ≤ p.last_step_index_sent_) →
      processLoop ex false n p log = some (p', log') →
      ∀ s, Event.executeStep s ∈ log' → ex s = false →
        p'.state_ = FAILED ∧ p'.last_step_index_sent_ = s.step_index - 1 ∧
        log'.getLast? = some (Event.executeStep s) ∧
        ∀ t, Event.executeStep t ∈ log' → t.step_index ≤ s.step_index := by
  intro n
  induction n with
  | zero => intro p log p' log' _ h; simp [processLoop_zero] at h
  | succ n ih =>
    intro p log p' log' hinv h s hs hfail
    rw [processLoop_succ] at h
    have hsame : ∀ q : StepControllerPlugin, some (q, log) = some (p', log') →
        p'.state_ = FAILED ∧ p'.last_step_index_sent_ = s.step_index - 1 ∧
        log'.getLast? = some (Event.executeStep s) ∧
        ∀ t, Event.executeStep t ∈ log' → t.step_index ≤ s.step_index := by
      intro q hq
      simp only [Option.some.injEq, Prod.mk.injEq] at hq
      obtain ⟨_, rfl⟩ := hq
      have := (hinv s hs).1
      rw [hfail] at this
      exact Bool.noConfusion this
    by_cases h1 : p.last_step_index_sent_ < p.next_step_index_needed_
    · rw [if_pos h1] at h
      by_cases h2 : p.step_queue_.empty = true
      · rw [if_pos h2] at h
        exact hsame _ h
      · rw [if_neg h2] at h
        cases h3 : p.step_queue_.getStep (p.last_step_index_sent_ + 1) with
        | none =>
          rw [h3] at h
          exact hsame _ h
        | some step =>
          rw [h3] at h
          have hidx := getStep_index h3
          by_cases h4 : ex step = true
          · simp only [h4, if_true] at h
            refine ih _ _ _ _ ?_ h s hs hfail
            intro t ht
            simp only [List.mem_append, List.mem_singleton, Event.executeStep.injEq] at ht
            rcases ht with (ht | rfl) | ht
            · have := hinv t ht
              refine ⟨this.1, ?_⟩
              simp only [afterSend]
              omega
            · refine ⟨h4, ?_⟩
              simp only [afterSend]
              omega
            · exact absurd ht (executeStep_not_mem_collectLog p t)
          · simp only [h4] at h
            simp only [Bool.false_eq_true, if_false, Option.some.injEq, Prod.mk.injEq] at h
            obtain ⟨rfl, rfl⟩ := h
            simp only [List.mem_append, List.mem_singleton, Event.executeStep.injEq] at hs
            have hs2 : s = step := by
              rcases hs with hs | hs
              · have := (hinv s hs).1
                rw [hfail] at this
                exact Bool.noConfusion this
              · exact hs
            subst hs2
            refine ⟨rfl, ?_, by simp, ?_⟩
            · simp only [markFailed]
              omega
            · intro t ht
              simp only [List.mem_append, List.mem_singleton, Event.executeStep.injEq] at ht
              rcases ht with ht | rfl
              · have := (hinv t ht).2
                omega
              · exact le_refl _
    · rw [if_neg h1] at h
      exact hsame _ h

/-- C5: when `executeStep` reports failure for a step `s` during `process` on an `ACTIVE`
controller, the call returns with state `FAILED` and `last_step_index_sent_ = s.step_index - 1`;
the failing call is the last thing `process` did (no garbage collection of the queue and no
further dispatch follows it), and no step with a greater index was dispatched in the call. -/
theorem C5_dispatch_failure (ex : Step → Bool) (p : StepControllerPlugin)
    (hactive : p.state_ = ACTIVE) :
    ∃ p' log, process ex false p = some (p', log) ∧
      ∀ s, Event.executeStep s ∈ log → ex s = false →
        p'.state_ = FAILED ∧ p'.last_step_index_sent_ = s.step_index - 1 ∧
        log.getLast? = some (Event.executeStep s) ∧
        ∀ t, Event.executeStep t ∈ log → t.step_index ≤ s.step_index := by
  obtain ⟨⟨p', log⟩, hrun⟩ := process_returns ex p
  refine ⟨p', log, hrun, ?_⟩
  rw [process_free, if_pos hactive] at hrun
  exact processLoop_dispatch_failure ex _ p [] p' log (by simp) hrun

/-! ## `updateStepPlan` -/

theorem updateStepPlan_empty (held : Bool) (p : StepControllerPlugin) (plan : StepPlan)
    (h : plan.steps = []) : updateStepPlan held p plan = some p := by
  simp [updateStepPlan, h]

theorem updateStepPlan_active (p : StepControllerPlugin) (plan : StepPlan)
    (hplan : plan.steps ≠ []) (hactive : p.state_ = ACTIVE) :
    updateStepPlan false p plan =
      some (if (p.step_queue_.updateStepPlan plan
                  p.feedback_state_.first_changeable_step_index).1 = true then
              refreshQueueFeedback
                { p with
                    step_queue_ := (p.step_queue_.updateStepPlan plan
                      p.feedback_state_.first_changeable_step_index).2,
                    last_step_index_sent_ :=
                      p.feedback_state_.first_changeable_step_index - 1 }
            else
              { p with
                  step_queue_ := (p.step_queue_.updateStepPlan plan
                    p.feedback_state_.first_changeable_step_index).2 }) := by
  have he : plan.steps.isEmpty = false := by
    cases hs : plan.steps with
    | nil => exact absurd hs hplan
    | cons a l => rfl
  have h1 : ¬ (p.state_ = FINISHED ∨ p.state_ = FAILED) := by simp [hactive]
  have h2 : p.state_ = READY ∨ p.state_ = ACTIVE := Or.inr hactive
  simp only [updateStepPlan, he, getState, getFeedbackState, setLastStepIndexSent,
    updateQueueFeedback, withLock_free, Option.some_bind, Option.bind_eq_bind, pure,
    Option.pure_def, Bool.false_eq_true, if_false, if_neg h1, if_pos h2, if_pos hactive]
  by_cases hc : (p.step_queue_.updateStepPlan plan
      p.feedback_state_.first_changeable_step_index).1 = true
  · simp only [hc, if_true, refreshQueueFeedback]
  · simp only [hc, if_false]
    rfl

theorem updateStepPlan_ready (p : StepControllerPlugin) (plan : StepPlan)
    (hplan : plan.steps ≠ []) (hready : p.state_ = READY) :
    updateStepPlan false p plan =
      some (if (p.step_queue_.updateStepPlan plan
                  p.feedback_state_.first_changeable_step_index).1 = true then
              refreshQueueFeedback
                { p with
                    step_queue_ := (p.step_queue_.updateStepPlan plan
                      p.feedback_state_.first_changeable_step_index).2 }
            else
              { p with
                  step_queue_ := (p.step_queue_.updateStepPlan plan
                    p.feedback_state_.first_changeable_step_index).2 }) := by
  have he : plan.steps.isEmpty = false := by
    cases hs : plan.steps with
    | nil => exact absurd hs hplan
    | cons a l => rfl
  have h1 : ¬ (p.state_ = FINISHED ∨ p.state_ = FAILED) := by simp [hready]
  have h2 : p.state_ = READY ∨ p.state_ = ACTIVE := Or.inl hready
  have h3 : ¬ p.state_ = ACTIVE := by simp [hready]
  simp only [updateStepPlan, he, getState, getFeedbackState, setLastStepIndexSent,
    updateQueueFeedback, withLock_free, Option.some_bind, Option.bind_eq_bind, pure,
    Option.pure_def, Bool.false_eq_true, if_false, if_neg h1, if_pos h2, if_neg h3]
  by_cases hc : (p.step_queue_.updateStepPlan plan
      p.feedback_state_.first_changeable_step_index).1 = true
  · simp only [hc, if_true, refreshQueueFeedback]
  · simp only [hc, if_false]
    rfl

theorem updateStepPlan_terminal (p : StepControllerPlugin) (plan : StepPlan)
    (hplan : plan.steps ≠ []) (hterm : p.state_ = FINISHED ∨ p.state_ = FAILED) :
    updateStepPlan false p plan = updateStepPlan false freshlyReset plan := by
  have he : plan.steps.isEmpty = false := by
    cases hs : plan.steps with
    | nil => exact absurd hs hplan
    | cons a l => rfl
  have hfresh : ¬ (freshlyReset.state_ = FINISHED ∨ freshlyReset.state_ = FAILED) := by
    simp [freshlyReset]
  simp only [updateStepPlan, he, getState, withLock_free, Option.some_bind,
    Option.bind_eq_bind, if_pos hterm, if_neg hfresh, Bool.false_eq_true, if_false,
    reset_free, pure, Option.pure_def]

/-! ## The merge of the queue -/

theorem getStep_insertStep (l : List Step) (s : Step) (i : Int) :
    (⟨StepQueue.insertStep l s⟩ : StepQueue).getStep i =
      if s.step_index = i then some s else (⟨l⟩ : StepQueue).getStep i := by
  simp only [StepQueue.getStep]
  induction l with
  | nil =>
    by_cases h : s.step_index = i <;> simp [StepQueue.insertStep, h]
  | cons t ts ih =>
    simp only [StepQueue.insertStep]
    by_cases h1 : s.step_index < t.step_index
    · rw [if_pos h1]
      by_cases h : s.step_index = i <;> simp [h]
    · rw [if_neg h1]
      by_cases h2 : s.step_index = t.step_index
      · rw [if_pos h2]
        by_cases h : s.step_index = i
        · simp [h]
        · have ht : ¬ t.step_index = i := fun e => h (h2.trans e)
          simp [h, ht]
      · rw [if_neg h2]
        by_cases ht : t.step_index = i
        · have h : ¬ s.step_index = i := fun e => h2 (e.trans ht.symm)
          simp [h, ht]
        · simp only [List.find?_cons, ht, decide_False]
          exact ih

theorem foldl_max_ge (l : List Step) (a : Int) :
    a ≤ l.foldl (fun m t => max m t.step_index) a ∧
      ∀ t ∈ l, t.step_index ≤ l.foldl (fun m t => max m t.step_index) a := by
  induction l generalizing a with
  | nil => simp
  | cons x xs ih =>
    simp only [List.foldl_cons, List.mem_cons]
    obtain ⟨h1, h2⟩ := ih (max a x.step_index)
    refine ⟨le_trans (le_max_left _ _) h1, ?_⟩
    rintro t (rfl | ht)
    · exact le_trans (le_max_right _ _) h1
    · exact h2 t ht

theorem le_lastStepIndex {q : StepQueue} {s : Step} (h : s ∈ q.steps) :
    s.step_index ≤ q.lastStepIndex := by
  obtain ⟨l⟩ := q
  cases l with
  | nil => simp at h
  | cons x xs =>
    simp only [StepQueue.lastStepIndex]
    rcases List.mem_cons.mp h with rfl | h
    · exact (foldl_max_ge xs _).1
    · exact (foldl_max_ge xs _).2 s h

theorem mem_of_getStep {q : StepQueue} {i : Int} {s : Step} (h : q.getStep i = some s) :
    s ∈ q.steps :=
  List.mem_of_find?_eq_some h

theorem merge_foldl_keeps (w : Step → Bool) (i : Int) (s : Step) :
    ∀ (plan acc : List Step),
      (⟨acc⟩ : StepQueue).getStep i = some s →
      (∀ t ∈ plan, w t = true → t.step_index ≠ i) →
      (⟨plan.foldl (fun acc t => if w t then StepQueue.insertStep acc t else acc) acc⟩ :
        StepQueue).getStep i = some s := by
  intro plan
  induction plan with
  | nil => intro acc h _; exact h
  | cons t ts ih =>
    intro acc h hw
    simp only [List.foldl_cons]
    apply ih
    · by_cases hwt : w t = true
      · rw [if_pos hwt, getStep_insertStep, if_neg (hw t (List.mem_cons_self _ _) hwt)]
        exact h
      · rw [if_neg hwt]
        exact h
    · intro u hu
      exact hw u (List.mem_cons_of_mem _ hu)

/-- The merge leaves the entries queued strictly below the first changeable index
untouched. -/
theorem merge_keeps_below (q : StepQueue) (plan : StepPlan) (f i : Int) (s : Step)
    (hi : i < f) (h : q.getStep i = some s) :
    (q.updateStepPlan plan f).2.getStep i = some s := by
  unfold StepQueue.updateStepPlan
  split
  · exact h
  split
  · exact h
  · apply merge_foldl_keeps
    · exact h
    · intro t _ hw he
      have hmem := mem_of_getStep h
      have hidx := getStep_index h
      have hne : q.empty = false := by
        obtain ⟨l⟩ := q
        cases l with
        | nil => simp at hmem
        | cons x xs => rfl
      have hlast := le_lastStepIndex hmem
      simp only [StepQueue.writes, hne, Bool.false_or, Bool.or_eq_true, decide_eq_true_eq] at hw
      omega

/-! ## Where `process` starts to dispatch -/

theorem process_dispatch_head (ex : Step → Bool) (p p' : StepControllerPlugin)
    (log : List Event) (h : process ex false p = some (p', log)) (s : Step)
    (hs : (dispatched log).head? = some s) : s.step_index = p.last_step_index_sent_ + 1 := by
  rw [process_free] at h
  split at h
  · obtain ⟨⟨l, hl, hidx, _⟩, _⟩ := processLoop_log ex _ _ _ _ _ h
    simp only [dispatched, List.nil_append] at hl
    rw [hl] at hs
    cases l with
    | nil => simp at hs
    | cons x xs =>
      simp only [List.head?_cons, Option.some.injEq] at hs
      subst hs
      simp only [List.map_cons, List.length_cons, indicesFrom, List.cons.injEq] at hidx
      exact hidx.1
  · simp only [Option.some.injEq, Prod.mk.injEq] at h
    rw [← h.2] at hs
    simp [dispatched] at hs

theorem process_first_dispatch (ex : Step → Bool) (p : StepControllerPlugin) (s : Step)
    (hactive : p.state_ = ACTIVE)
    (hlt : p.last_step_index_sent_ < p.next_step_index_needed_)
    (hs : p.step_queue_.getStep (p.last_step_index_sent_ + 1) = some s) :
    ∃ p' log, process ex false p = some (p', log) ∧ (dispatched log).head? = some s := by
  rw [process_free, if_pos hactive, processLoop_succ, if_pos hlt]
  have hne : ¬ p.step_queue_.empty = true := by
    intro he
    rw [getStep_of_empty he] at hs
    exact Option.noConfusion hs
  rw [if_neg hne, hs]
  by_cases h4 : ex s = true
  · simp only [h4, if_true]
    obtain ⟨⟨p', log'⟩, hrun⟩ := processLoop_returns ex
      (p.next_step_index_needed_ - p.last_step_index_sent_).toNat (afterSend p)
      ([] ++ [Event.executeStep s] ++ collectLog p)
      (by simp only [afterSend]; omega)
    obtain ⟨⟨l, hl, _, _⟩, _⟩ := processLoop_log ex _ _ _ _ _ hrun
    refine ⟨p', log', hrun, ?_⟩
    rw [hl]
    simp [dispatched_append, dispatched_collectLog, dispatched]
  · simp only [h4]
    exact ⟨_, _, rfl, by simp [dispatched]⟩

/-- C6: on an `ACTIVE` controller whose feedback has first changeable index `f`,
`updateStepPlan` with a non-empty plan whose merge changes the queue returns with the state
still `ACTIVE`, the queue replaced by the merged queue, in which every entry queued below `f`
is untouched, and `last_step_index_sent_ = f - 1`; the next call of `process` therefore
dispatches no step before the one with index `f`, and dispatches that one first whenever it
is queued and needed. -/
theorem C6_revision_rolls_back (p : StepControllerPlugin) (plan : StepPlan) (f : Int)
    (hactive : p.state_ = ACTIVE) (hplan : plan.steps ≠ [])
    (hf : p.feedback_state_.first_changeable_step_index = f)
    (hchanged : (p.step_queue_.updateStepPlan plan f).1 = true) :
    ∃ p', updateStepPlan false p plan = some p' ∧
      p'.state_ = ACTIVE ∧
      p'.last_step_index_sent_ = f - 1 ∧
      p'.next_step_index_needed_ = p.next_step_index_needed_ ∧
      p'.step_queue_ = (p.step_queue_.updateStepPlan plan f).2 ∧
      (∀ i s, i < f → p.step_queue_.getStep i = some s → p'.step_queue_.getStep i = some s) ∧
      (∀ ex : Step → Bool, ∃ p'' log, process ex false p' = some (p'', log) ∧
        (∀ s, (dispatched log).head? = some s → s.step_index = f) ∧
        (∀ s, p'.step_queue_.getStep f = some s → f ≤ p'.next_step_index_needed_ →
          (dispatched log).head? = some s)) := by
  subst hf
  rw [updateStepPlan_active p plan hplan hactive, if_pos hchanged]
  refine ⟨_, rfl, hactive, rfl, rfl, rfl, ?_, ?_⟩
  · intro i s hi hs
    exact merge_keeps_below _ _ _ _ _ hi hs
  · intro ex
    obtain ⟨⟨p'', log⟩, hrun⟩ := process_returns ex
      (refreshQueueFeedback
        { p with
            step_queue_ := (p.step_queue_.updateStepPlan plan
              p.feedback_state_.first_changeable_step_index).2,
            last_step_index_sent_ := p.feedback_state_.first_changeable_step_index - 1 })
    refine ⟨p'', log, hrun, ?_, ?_⟩
    · intro s hs
      have := process_dispatch_head ex _ _ _ hrun s hs
      simp only [refreshQueueFeedback] at this
      omega
    · intro s hs hneeded
      obtain ⟨q'', log2, hrun2, hhead⟩ := process_first_dispatch ex
        (refreshQueueFeedback
          { p with
              step_queue_ := (p.step_queue_.updateStepPlan plan
                p.feedback_state_.first_changeable_step_index).2,
              last_step_index_sent_ := p.feedback_state_.first_changeable_step_index - 1 })
        s hactive
        (by simp only [refreshQueueFeedback] at hneeded ⊢; omega)
        (by simpa only [refreshQueueFeedback, sub_add_cancel] using hs)
      rw [hrun] at hrun2
      simp only [Option.some.injEq, Prod.mk.injEq] at hrun2
      rw [hrun2.2]
      exact hhead

/-- C7: in `FINISHED` or `FAILED`, `updateStepPlan` with a non-empty plan gives what `reset`
followed by `updateStepPlan` on the reset controller gives: it returns in `READY` with both
counters at -1, and the queue is the plan merged into an empty queue with first changeable
index -1, so that nothing of the previous queue (nor of the previous feedback) is left. -/
theorem C7_terminal_update_resets (p : StepControllerPlugin) (plan : StepPlan)
    (hterm : p.state_ = FINISHED ∨ p.state_ = FAILED) (hplan : plan.steps ≠ []) :
    updateStepPlan false p plan = (reset false p).bind (fun r => updateStepPlan false r plan) ∧
    ∃ p', updateStepPlan false p plan = some p' ∧
      p'.state_ = READY ∧ p'.last_step_index_sent_ = -1 ∧ p'.next_step_index_needed_ = -1 ∧
      p'.step_queue_ = ((⟨[]⟩ : StepQueue).updateStepPlan plan (-1)).2 ∧
      p'.feedback_state_.last_performed_step_index = -1 ∧
      p'.feedback_state_.currently_executing_step_index = -1 ∧
      p'.feedback_state_.first_changeable_step_index = -1 := by
  refine ⟨?_, ?_⟩
  · rw [reset_free, Option.some_bind]
    exact updateStepPlan_terminal p plan hplan hterm
  · rw [updateStepPlan_terminal p plan hplan hterm,
      updateStepPlan_ready freshlyReset plan hplan rfl]
    refine ⟨_, rfl, ?_⟩
    split <;> exact ⟨rfl, rfl, rfl, rfl, rfl, rfl, rfl⟩

/-! ## Ticks -/

theorem tick_free (iw : StepControllerPlugin → StepControllerPlugin) (ex : Step → Bool)
    (p : StepControllerPlugin) :
    tick iw ex p =
      process ex false
        (if p.state_ = READY ∧ p.step_queue_.empty = false then
          (if p.step_queue_.firstStepIndex ≠ 0 then markFailed p else iw p)
         else p) := by
  simp only [tick, preProcess_free, Option.bind_eq_bind, Option.some_bind]

theorem tick_failed (iw : StepControllerPlugin → StepControllerPlugin) (ex : Step → Bool)
    (p : StepControllerPlugin) (hfailed : p.state_ = FAILED) : tick iw ex p = some (p, []) := by
  have h1 : ¬ (p.state_ = READY ∧ p.step_queue_.empty = false) := by simp [hfailed]
  have h2 : ¬ p.state_ = ACTIVE := by simp [hfailed]
  rw [tick_free, if_neg h1, process_free, if_neg h2]

theorem ticks_failed (iw : StepControllerPlugin → StepControllerPlugin) (ex : Step → Bool)
    (p : StepControllerPlugin) (hfailed : p.state_ = FAILED) (n : Nat) :
    ticks iw ex n p = some p := by
  induction n with
  | zero => rfl
  | succ n ih =>
    simp only [ticks, tick_failed iw ex p hfailed, Option.bind_eq_bind, Option.some_bind]
    exact ih

/-- C8: `FAILED` is terminal under ticks.  A tick (`preProcess` followed by `process`) on a
controller in `FAILED` returns the controller unchanged (state, queue, both counters and
feedback) and dispatches nothing, and so does any number of ticks; `updateStepPlan` with an
empty plan leaves it unchanged as well. -/
theorem C8_failed_is_terminal (iw : StepControllerPlugin → StepControllerPlugin)
    (ex : Step → Bool) (p : StepControllerPlugin) (hfailed : p.state_ = FAILED) :
    tick iw ex p = some (p, []) ∧ (∀ n, ticks iw ex n p = some p) ∧
      updateStepPlan false p ⟨[]⟩ = some p :=
  ⟨tick_failed iw ex p hfailed, ticks_failed iw ex p hfailed, updateStepPlan_empty false p _ rfl⟩

/-! ## A plan that does not start at index 0 -/

/-- What the tick does with a queue that does not start at index 0, should one be held in
`READY`: `preProcess` sets `FAILED` without calling `initWalk`, and `process` does nothing. -/
theorem tick_ready_not_from_zero (iw : StepControllerPlugin → StepControllerPlugin)
    (ex : Step → Bool) (p : StepControllerPlugin) (hready : p.state_ = READY)
    (hq : p.step_queue_.empty = false) (hfirst : p.step_queue_.firstStepIndex ≠ 0) :
    tick iw ex p = some (markFailed p, []) := by
  have h3 : ¬ (markFailed p).state_ = ACTIVE := by simp [markFailed]
  rw [tick_free, if_pos ⟨hready, hq⟩, if_pos hfirst, process_free, if_neg h3]

/-- C10 (as amended): on an `ACTIVE` controller whose feedback reports the last performed
index `perf >= 0`, a tick in which at least one step is dispatched with success (the counter
is below the needed index, the next step is queued and `executeStep` accepts it) leaves no
step with index in `0..perf` in the queue; a tick with the counter not below the needed index
dispatches nothing and leaves the whole controller, its queue included, unchanged. -/
theorem C10_collects_after_dispatch (iw : StepControllerPlugin → StepControllerPlugin)
    (ex : Step → Bool) (p : StepControllerPlugin) (hactive : p.state_ = ACTIVE)
    (hperf : 0 ≤ p.feedback_state_.last_performed_step_index) :
    (p.last_step_index_sent_ < p.next_step_index_needed_ →
      ∀ s, p.step_queue_.getStep (p.last_step_index_sent_ + 1) = some s → ex s = true →
        ∃ p' log, tick iw ex p = some (p', log) ∧
          ∀ i, 0 ≤ i → i ≤ p.feedback_state_.last_performed_step_index →
            p'.step_queue_.getStep i = none) ∧
    (p.next_step_index_needed_ ≤ p.last_step_index_sent_ → tick iw ex p = some (p, [])) := by
  have h0 : ¬ (p.state_ = READY ∧ p.step_queue_.empty = false) := by simp [hactive]
  rw [tick_free, if_neg h0, process_free, if_pos hactive, processLoop_succ]
  constructor
  · intro hlt s hs hex
    have hne : ¬ p.step_queue_.empty = true := by
      intro he
      rw [getStep_of_empty he] at hs
      exact Option.noConfusion hs
    rw [if_pos hlt, if_neg hne, hs]
    simp only [hex, if_true]
    obtain ⟨⟨p', log'⟩, hrun⟩ := processLoop_returns ex
      (p.next_step_index_needed_ - p.last_step_index_sent_).toNat (afterSend p)
      ([] ++ [Event.executeStep s] ++ collectLog p)
      (by simp only [afterSend]; omega)
    refine ⟨p', log', hrun, ?_⟩
    intro i hi0 hi1
    obtain ⟨_, hshrink⟩ := processLoop_log ex _ _ _ _ _ hrun
    cases hg : p'.step_queue_.getStep i with
    | none => rfl
    | some t =>
      have := hshrink i t hg
      simp only [afterSend, collected, if_pos hperf, getStep_removeSteps] at this
      rw [if_pos ⟨hi0, hi1⟩] at this
      exact Option.noConfusion this
  · intro hge
    rw [if_neg (by omega)]

/-! ## Concrete runs -/

/-- Witness of C2: queue 0, 1, 2 with nothing sent and index 2 needed. -/
theorem C2_process_spools_witness :
    (controllerOf ACTIVE 2 (-1) (-1) 1 [(0, 0), (1, 0), (2, 0)]).state_ = ACTIVE ∧
    ∃ p' log, process acceptAll false
        (controllerOf ACTIVE 2 (-1) (-1) 1 [(0, 0), (1, 0), (2, 0)]) = some (p', log) ∧
      (p'.state_ = FAILED ∨
        (p'.state_ = ACTIVE ∧
          p'.last_step_index_sent_ = max (-1) 2 ∧
          (dispatched log).map Step.step_index = indicesFrom (-1 + 1) ((2 : Int) - (-1)).toNat ∧
          ∀ s ∈ dispatched log,
            (queueOf [(0, 0), (1, 0), (2, 0)]).getStep s.step_index = some s)) :=
  ⟨rfl, C2_process_spools acceptAll
    (controllerOf ACTIVE 2 (-1) (-1) 1 [(0, 0), (1, 0), (2, 0)]) rfl⟩

/-- Witness of C3: a plan starting at index 1 is refused, a plan starting at index 0 is
admitted, and an `ACTIVE` controller is left alone. -/
theorem C3_preProcess_admission_witness :
    (∃ p', preProcess initWalkToActive false
        (controllerOf READY (-1) (-1) (-1) (-1) [(1, 0), (2, 0)]) = some p' ∧
      p'.state_ = FAILED ∧ p'.feedback_state_.controller_state = FAILED ∧
      p' = markFailed (controllerOf READY (-1) (-1) (-1) (-1) [(1, 0), (2, 0)]) ∧
      p'.step_queue_ = queueOf [(1, 0), (2, 0)] ∧
      p'.last_step_index_sent_ = -1 ∧ p'.next_step_index_needed_ = -1) ∧
    (∃ p', preProcess initWalkToActive false
        (controllerOf READY (-1) (-1) (-1) (-1) [(0, 0), (1, 0)]) = some p' ∧
      p'.state_ = ACTIVE) ∧
    preProcess initWalkToActive false (controllerOf ACTIVE 1 0 (-1) 1 [(0, 0), (1, 0)]) =
      some (controllerOf ACTIVE 1 0 (-1) 1 [(0, 0), (1, 0)]) :=
  ⟨(C3_preProcess_admission initWalkToActive
      (controllerOf READY (-1) (-1) (-1) (-1) [(1, 0), (2, 0)])).1 rfl rfl (by decide),
   ((C3_preProcess_admission initWalkToActive
      (controllerOf READY (-1) (-1) (-1) (-1) [(0, 0), (1, 0)])).2.1 rfl rfl rfl).2 rfl,
   (C3_preProcess_admission initWalkToActive
      (controllerOf ACTIVE 1 0 (-1) 1 [(0, 0), (1, 0)])).2.2 (Or.inl (by decide))⟩

/-- Witness of C4: queue 0, 1, 3 with nothing sent and index 3 needed; the gap is at 2. -/
theorem C4_gap_detected_witness :
    ∃ p' log, process acceptAll false
        (controllerOf ACTIVE 3 (-1) (-1) 1 [(0, 0), (1, 0), (3, 0)]) = some (p', log) ∧
      p'.state_ = FAILED ∧ p'.last_step_index_sent_ = 2 - 1 ∧
      (dispatched log).map Step.step_index = indicesFrom (-1 + 1) ((2 : Int) - 1 - (-1)).toNat :=
  C4_gap_detected acceptAll (controllerOf ACTIVE 3 (-1) (-1) 1 [(0, 0), (1, 0), (3, 0)]) 2
    rfl (by decide) (by decide) (by decide) (by decide)
    (by
      intro i h1 h2
      have h1 : (-1 : Int) < i := h1
      have hi : i = 0 ∨ i = 1 := by omega
      rcases hi with rfl | rfl
      · exact ⟨⟨0, 0⟩, by decide, rfl⟩
      · exact ⟨⟨1, 0⟩, by decide, rfl⟩)

/-- Witness of C5: queue 0, 1, 2 with index 2 needed and a back-end that rejects step 1. -/
theorem C5_dispatch_failure_witness :
    (controllerOf ACTIVE 2 (-1) 0 1 [(0, 0), (1, 0), (2, 0)]).state_ = ACTIVE ∧
    ∃ p' log, process (rejectAt 1) false
        (controllerOf ACTIVE 2 (-1) 0 1 [(0, 0), (1, 0), (2, 0)]) = some (p', log) ∧
      log = [Event.executeStep ⟨0, 0⟩, Event.removeSteps 0 0, Event.executeStep ⟨1, 0⟩] ∧
      rejectAt 1 ⟨1, 0⟩ = false ∧
      p'.state_ = FAILED ∧ p'.last_step_index_sent_ = 1 - 1 ∧
      log.getLast? = some (Event.executeStep ⟨1, 0⟩) ∧
      ∀ t, Event.executeStep t ∈ log → t.step_index ≤ 1 := by
  refine ⟨rfl, ?_⟩
  obtain ⟨p', log, hrun, h⟩ := C5_dispatch_failure (rejectAt 1)
    (controllerOf ACTIVE 2 (-1) 0 1 [(0, 0), (1, 0), (2, 0)]) rfl
  have hval : process (rejectAt 1) false
      (controllerOf ACTIVE 2 (-1) 0 1 [(0, 0), (1, 0), (2, 0)]) =
      some (markFailed (afterSend (controllerOf ACTIVE 2 (-1) 0 1 [(0, 0), (1, 0), (2, 0)])),
        [Event.executeStep ⟨0, 0⟩, Event.removeSteps 0 0, Event.executeStep ⟨1, 0⟩]) := by
    decide
  have hlog : log =
      [Event.executeStep ⟨0, 0⟩, Event.removeSteps 0 0, Event.executeStep ⟨1, 0⟩] := by
    rw [hval] at hrun
    simp only [Option.some.injEq, Prod.mk.injEq] at hrun
    exact hrun.2.symm
  have hres := h ⟨1, 0⟩ (by rw [hlog]; simp) rfl
  exact ⟨p', log, hrun, hlog, rfl, hres⟩

/-- Witness of C6: counter at 5, queue 0..10, first changeable index 3, and a revised plan
for the indices 3..10. -/
theorem C6_revision_rolls_back_witness :
    ∃ p', updateStepPlan false
        (controllerOf ACTIVE 7 5 2 3
          [(0, 0), (1, 0), (2, 0), (3, 0), (4, 0), (5, 0), (6, 0), (7, 0), (8, 0), (9, 0),
            (10, 0)])
        ⟨[⟨3, 1⟩, ⟨4, 1⟩, ⟨5, 1⟩, ⟨6, 1⟩, ⟨7, 1⟩, ⟨8, 1⟩, ⟨9, 1⟩, ⟨10, 1⟩]⟩ = some p' ∧
      p'.state_ = ACTIVE ∧
      p'.last_step_index_sent_ = 3 - 1 ∧
      p'.next_step_index_needed_ = 7 ∧
      p'.step_queue_ =
        ((queueOf [(0, 0), (1, 0), (2, 0), (3, 0), (4, 0), (5, 0), (6, 0), (7, 0), (8, 0),
            (9, 0), (10, 0)]).updateStepPlan
          ⟨[⟨3, 1⟩, ⟨4, 1⟩, ⟨5, 1⟩, ⟨6, 1⟩, ⟨7, 1⟩, ⟨8, 1⟩, ⟨9, 1⟩, ⟨10, 1⟩]⟩ 3).2 ∧
      (∀ i s, i < 3 →
        (queueOf [(0, 0), (1, 0), (2, 0), (3, 0), (4, 0), (5, 0), (6, 0), (7, 0), (8, 0),
            (9, 0), (10, 0)]).getStep i = some s →
        p'.step_queue_.getStep i = some s) ∧
      (∀ ex : Step → Bool, ∃ p'' log, process ex false p' = some (p'', log) ∧
        (∀ s, (dispatched log).head? = some s → s.step_index = 3) ∧
        (∀ s, p'.step_queue_.getStep 3 = some s → 3 ≤ p'.next_step_index_needed_ →
          (dispatched log).head? = some s)) :=
  C6_revision_rolls_back
    (controllerOf ACTIVE 7 5 2 3
      [(0, 0), (1, 0), (2, 0), (3, 0), (4, 0), (5, 0), (6, 0), (7, 0), (8, 0), (9, 0),
        (10, 0)])
    ⟨[⟨3, 1⟩, ⟨4, 1⟩, ⟨5, 1⟩, ⟨6, 1⟩, ⟨7, 1⟩, ⟨8, 1⟩, ⟨9, 1⟩, ⟨10, 1⟩]⟩ 3
    rfl (by decide) rfl (by decide)

/-- Witness of C7: a controller in `FAILED` with an old queue 0..2 is given the plan 0, 1. -/
theorem C7_terminal_update_resets_witness :
    updateStepPlan false (controllerOf FAILED 2 1 0 1 [(0, 0), (1, 0), (2, 0)])
        ⟨[⟨0, 5⟩, ⟨1, 5⟩]⟩ =
      (reset false (controllerOf FAILED 2 1 0 1 [(0, 0), (1, 0), (2, 0)])).bind
        (fun r => updateStepPlan false r ⟨[⟨0, 5⟩, ⟨1, 5⟩]⟩) ∧
    ∃ p', updateStepPlan false (controllerOf FAILED 2 1 0 1 [(0, 0), (1, 0), (2, 0)])
        ⟨[⟨0, 5⟩, ⟨1, 5⟩]⟩ = some p' ∧
      p'.state_ = READY ∧ p'.last_step_index_sent_ = -1 ∧ p'.next_step_index_needed_ = -1 ∧
      p'.step_queue_ = ((⟨[]⟩ : StepQueue).updateStepPlan ⟨[⟨0, 5⟩, ⟨1, 5⟩]⟩ (-1)).2 ∧
      p'.feedback_state_.last_performed_step_index = -1 ∧
      p'.feedback_state_.currently_executing_step_index = -1 ∧
      p'.feedback_state_.first_changeable_step_index = -1 :=
  C7_terminal_update_resets (controllerOf FAILED 2 1 0 1 [(0, 0), (1, 0), (2, 0)])
    ⟨[⟨0, 5⟩, ⟨1, 5⟩]⟩ (Or.inr rfl) (by decide)

/-- Witness of C8: a controller that failed on the gap of the queue 0, 1, 3. -/
theorem C8_failed_is_terminal_witness :
    tick initWalkToActive acceptAll (controllerOf FAILED 3 1 (-1) 1 [(0, 0), (1, 0), (3, 0)]) =
      some (controllerOf FAILED 3 1 (-1) 1 [(0, 0), (1, 0), (3, 0)], []) ∧
    (∀ n, ticks initWalkToActive acceptAll n
        (controllerOf FAILED 3 1 (-1) 1 [(0, 0), (1, 0), (3, 0)]) =
      some (controllerOf FAILED 3 1 (-1) 1 [(0, 0), (1, 0), (3, 0)])) ∧
    updateStepPlan false (controllerOf FAILED 3 1 (-1) 1 [(0, 0), (1, 0), (3, 0)]) ⟨[]⟩ =
      some (controllerOf FAILED 3 1 (-1) 1 [(0, 0), (1, 0), (3, 0)]) :=
  C8_failed_is_terminal initWalkToActive acceptAll
    (controllerOf FAILED 3 1 (-1) 1 [(0, 0), (1, 0), (3, 0)]) rfl

/-- Counterexample to C10 as stated: an `ACTIVE` controller with last performed index 4 and
both counters at 5; the tick dispatches nothing and the queue still holds the indices 0..4
(index 4 is looked up). -/
theorem C10_counterexample :
    (controllerOf ACTIVE 5 5 4 5 [(0, 0), (1, 0), (2, 0), (3, 0), (4, 0), (5, 0)]).state_ =
        ACTIVE ∧
      (controllerOf ACTIVE 5 5 4 5
        [(0, 0), (1, 0), (2, 0), (3, 0), (4, 0), (5, 0)]).feedback_state_.last_performed_step_index
        = 4 ∧
      Option.map (fun r => r.1.step_queue_.getStep 4)
        (tick initWalkToActive acceptAll
          (controllerOf ACTIVE 5 5 4 5 [(0, 0), (1, 0), (2, 0), (3, 0), (4, 0), (5, 0)])) =
        some (some ⟨4, 0⟩) := by
  decide

/-- Witness of C10 as amended: last performed index 4, counter at 4 and index 5 needed. -/
theorem C10_collects_after_dispatch_witness :
    (∃ p' log, tick initWalkToActive acceptAll
        (controllerOf ACTIVE 5 4 4 5 [(0, 0), (1, 0), (2, 0), (3, 0), (4, 0), (5, 0)]) =
        some (p', log) ∧
      ∀ i, 0 ≤ i → i ≤ 4 → p'.step_queue_.getStep i = none) ∧
    tick initWalkToActive acceptAll
        (controllerOf ACTIVE 5 5 4 5 [(0, 0), (1, 0), (2, 0), (3, 0), (4, 0), (5, 0)]) =
      some (controllerOf ACTIVE 5 5 4 5 [(0, 0), (1, 0), (2, 0), (3, 0), (4, 0), (5, 0)], []) :=
  ⟨(C10_collects_after_dispatch initWalkToActive acceptAll
      (controllerOf ACTIVE 5 4 4 5 [(0, 0), (1, 0), (2, 0), (3, 0), (4, 0), (5, 0)])
      rfl (by decide)).1 (by decide) ⟨5, 0⟩ (by decide) rfl,
   (C10_collects_after_dispatch initWalkToActive acceptAll
      (controllerOf ACTIVE 5 5 4 5 [(0, 0), (1, 0), (2, 0), (3, 0), (4, 0), (5, 0)])
      rfl (by decide)).2 (by decide)⟩

/-! ## The counter under a revision of the plan -/

/-- The rule by which `updateStepPlan` writes the counter on an `ACTIVE` controller: it
leaves `last_step_index_sent_` unchanged when the merge does not change the queue and writes
the first changeable index minus one when it does.  The counter is therefore not raised when
the first changeable index is at most the old counter plus one, and it is lowered only when
the first changeable index is at most the old counter. -/
theorem updateStepPlan_counter_rule (p : StepControllerPlugin) (plan : StepPlan)
    (hactive : p.state_ = ACTIVE) (hplan : plan.steps ≠ []) :
    ∃ p', updateStepPlan false p plan = some p' ∧
      ((p.step_queue_.updateStepPlan plan p.feedback_state_.first_changeable_step_index).1 = true →
        p'.last_step_index_sent_ = p.feedback_state_.first_changeable_step_index - 1) ∧
      ((p.step_queue_.updateStepPlan plan p.feedback_state_.first_changeable_step_index).1 = false →
        p'.last_step_index_sent_ = p.last_step_index_sent_) ∧
      (p.feedback_state_.first_changeable_step_index ≤ p.last_step_index_sent_ + 1 →
        p'.last_step_index_sent_ ≤ p.last_step_index_sent_) ∧
      (p'.last_step_index_sent_ ≠ p.last_step_index_sent_ →
        (p.step_queue_.updateStepPlan plan p.feedback_state_.first_changeable_step_index).1 =
          true) ∧
      (p'.last_step_index_sent_ < p.last_step_index_sent_ →
        p.feedback_state_.first_changeable_step_index ≤ p.last_step_index_sent_) := by
  rw [updateStepPlan_active p plan hplan hactive]
  by_cases hc : (p.step_queue_.updateStepPlan plan
      p.feedback_state_.first_changeable_step_index).1 = true
  · rw [if_pos hc]
    refine ⟨_, rfl, fun _ => rfl, ?_, ?_, fun _ => hc, ?_⟩
    · intro h
      rw [hc] at h
      exact Bool.noConfusion h
    · intro h
      simp only [refreshQueueFeedback]
      omega
    · intro h
      simp only [refreshQueueFeedback] at h
      omega
  · rw [if_neg hc]
    refine ⟨_, rfl, fun h => absurd h hc, fun _ => rfl, fun _ => le_refl _, ?_, ?_⟩
    · intro h
      exact absurd rfl h
    · intro h
      exact absurd h (lt_irrefl _)

/-! ## The floor -1 of the counter -/

theorem construct_eq (needed sent : Int) :
    StepControllerPlugin.construct needed sent = some freshlyReset := by
  simp only [StepControllerPlugin.construct, reset_free]

/-- The loop of `process` never lowers the counter. -/
theorem processLoop_counter_mono (ex : Step → Bool) :
    ∀ (n : Nat) (p : StepControllerPlugin) (log : List Event)
      (p' : StepControllerPlugin) (log' : List Event),
      processLoop ex false n p log = some (p', log') →
      p.last_step_index_sent_ ≤ p'.last_step_index_sent_ := by
  intro n
  induction n with
  | zero => intro p log p' log' h; simp [processLoop_zero] at h
  | succ n ih =>
    intro p log p' log' h
    rw [processLoop_succ] at h
    have hstop : ∀ q : StepControllerPlugin,
        q.last_step_index_sent_ = p.last_step_index_sent_ →
        some (q, log) = some (p', log') →
        p.last_step_index_sent_ ≤ p'.last_step_index_sent_ := by
      intro q hq h
      simp only [Option.some.injEq, Prod.mk.injEq] at h
      rw [← h.1, hq]
    by_cases h1 : p.last_step_index_sent_ < p.next_step_index_needed_
    · rw [if_pos h1] at h
      by_cases h2 : p.step_queue_.empty = true
      · rw [if_pos h2] at h
        exact hstop (markFailed p) rfl h
      · rw [if_neg h2] at h
        cases h3 : p.step_queue_.getStep (p.last_step_index_sent_ + 1) with
        | none =>
          rw [h3] at h
          exact hstop (markFailed p) rfl h
        | some step =>
          rw [h3] at h
          by_cases h4 : ex step = true
          · simp only [h4, if_true] at h
            have := ih _ _ _ _ h
            simp only [afterSend] at this
            omega
          · simp only [h4] at h
            simp only [Bool.false_eq_true, if_false, Option.some.injEq, Prod.mk.injEq] at h
            rw [← h.1]
            exact le_refl _
    · rw [if_neg h1] at h
      exact hstop p rfl h

/-- The member `process` keeps the counter at or above -1. -/
theorem process_keeps_floor (ex : Step → Bool) (p p' : StepControllerPlugin)
    (log : List Event) (h : process ex false p = some (p', log))
    (hfloor : -1 ≤ p.last_step_index_sent_) : -1 ≤ p'.last_step_index_sent_ := by
  rw [process_free] at h
  split at h
  · exact le_trans hfloor (processLoop_counter_mono ex _ _ _ _ _ h)
  · simp only [Option.some.injEq, Prod.mk.injEq] at h
    rw [← h.1]
    exact hfloor

/-- The member `preProcess` keeps the counter at or above -1 when the hook `initWalk` does. -/
theorem preProcess_keeps_floor (iw : StepControllerPlugin → StepControllerPlugin)
    (p : StepControllerPlugin) (hfloor : -1 ≤ p.last_step_index_sent_)
    (hook : -1 ≤ (iw p).last_step_index_sent_) :
    ∃ p', preProcess iw false p = some p' ∧ -1 ≤ p'.last_step_index_sent_ := by
  rw [preProcess_free]
  refine ⟨_, rfl, ?_⟩
  split
  · split
    · exact hfloor
    · exact hook
  · exact hfloor

theorem updateStepPlan_rejected (p : StepControllerPlugin) (plan : StepPlan)
    (hstate : p.state_ = NOT_READY ∨ p.state_ = PAUSED) :
    updateStepPlan false p plan = some p := by
  have h1 : ¬ (p.state_ = FINISHED ∨ p.state_ = FAILED) := by
    rcases hstate with h | h <;> simp [h]
  have h2 : ¬ (p.state_ = READY ∨ p.state_ = ACTIVE) := by
    rcases hstate with h | h <;> simp [h]
  cases he : plan.steps.isEmpty with
  | true => simp [updateStepPlan, he]
  | false =>
    simp only [updateStepPlan, he, getState, withLock_free, Option.some_bind,
      Option.bind_eq_bind, pure, Option.pure_def, Bool.false_eq_true, if_false, if_neg h1,
      if_neg h2]

/-- The member `updateStepPlan` keeps the counter at or above -1 in every state, provided
that in `ACTIVE` the first changeable index of the feedback is not negative. -/
theorem updateStepPlan_keeps_floor (p : StepControllerPlugin) (plan : StepPlan)
    (hfloor : -1 ≤ p.last_step_index_sent_)
    (hfci : p.state_ = ACTIVE → 0 ≤ p.feedback_state_.first_changeable_step_index) :
    ∃ p', updateStepPlan false p plan = some p' ∧ -1 ≤ p'.last_step_index_sent_ := by
  by_cases hplan : plan.steps = []
  · exact ⟨p, updateStepPlan_empty false p plan hplan, hfloor⟩
  · have hfresh : ∃ p', updateStepPlan false freshlyReset plan = some p' ∧
        -1 ≤ p'.last_step_index_sent_ := by
      rw [updateStepPlan_ready freshlyReset plan hplan rfl]
      refine ⟨_, rfl, ?_⟩
      split
      · exact le_refl _
      · exact le_refl _
    cases hs : p.state_ with
    | NOT_READY => exact ⟨p, updateStepPlan_rejected p plan (Or.inl hs), hfloor⟩
    | PAUSED => exact ⟨p, updateStepPlan_rejected p plan (Or.inr hs), hfloor⟩
    | FINISHED =>
      rw [updateStepPlan_terminal p plan hplan (Or.inl hs)]
      exact hfresh
    | FAILED =>
      rw [updateStepPlan_terminal p plan hplan (Or.inr hs)]
      exact hfresh
    | READY =>
      rw [updateStepPlan_ready p plan hplan hs]
      refine ⟨_, rfl, ?_⟩
      split <;> exact hfloor
    | ACTIVE =>
      rw [updateStepPlan_active p plan hplan hs]
      refine ⟨_, rfl, ?_⟩
      have := hfci hs
      split
      · simp only [refreshQueueFeedback]
        omega
      · exact hfloor

/-- The defect behind C12, in general: on an `ACTIVE` controller whose feedback still has the
reset value -1 as first changeable index, a revision that changes the queue leaves the
counter at -2. -/
theorem updateStepPlan_below_floor (p : StepControllerPlugin) (plan : StepPlan)
    (hactive : p.state_ = ACTIVE) (hplan : plan.steps ≠ [])
    (hfci : p.feedback_state_.first_changeable_step_index = -1)
    (hchanged : (p.step_queue_.updateStepPlan plan (-1)).1 = true) :
    ∃ p', updateStepPlan false p plan = some p' ∧ p'.last_step_index_sent_ = -2 := by
  rw [updateStepPlan_active p plan hplan hactive, hfci, if_pos hchanged]
  exact ⟨_, rfl, rfl⟩

/-! ## Concrete runs of a revision -/

/-- C11 (defect of the code): `updateStepPlan` raises the counter.  On the `ACTIVE` controller
with the steps 0..12 queued, the counter at 2, step 3 needed and first changeable index 10,
the revised plan for the steps 10..12 makes `updateStepPlan` write 10 - 1 = 9 into
`last_step_index_sent_`, although 10 is not at most the old counter 2.  The next tick then
dispatches nothing and leaves the counter at 9, while step 3 is needed and queued: the steps
3..9 are skipped. -/
theorem C11_revision_raises_counter :
    (walkWithLateChangeable.state_, walkWithLateChangeable.last_step_index_sent_,
        walkWithLateChangeable.next_step_index_needed_,
        walkWithLateChangeable.feedback_state_.first_changeable_step_index) =
      (ACTIVE, 2, 3, 10) ∧
    revisionFromTen.steps ≠ [] ∧
    Option.map (fun p => (p.state_, p.last_step_index_sent_, p.next_step_index_needed_))
        (updateStepPlan false walkWithLateChangeable revisionFromTen) = some (ACTIVE, 9, 3) ∧
    ¬ ((9 : Int) ≤ 2) ∧ ¬ ((10 : Int) ≤ 2) ∧
    Option.map (fun p => p.step_queue_.getStep 3)
        (updateStepPlan false walkWithLateChangeable revisionFromTen) = some (some ⟨3, 0⟩) ∧
    Option.map (fun r => (r.1.state_, r.1.last_step_index_sent_, r.2))
        ((updateStepPlan false walkWithLateChangeable revisionFromTen).bind
          (tick initWalkToActive acceptAll)) = some (ACTIVE, 9, []) := by
  decide

/-- C12 (defect of the code): the run from construction in which the plan 0, 1 is submitted,
one tick admits the walk (state `ACTIVE`, counter -1, first changeable index still at its reset
value -1) and a revised plan arrives.  `updateStepPlan` writes the first changeable index
minus one into the counter, which is -2, below the floor -1; on the next tick `process` asks
the queue for the step -1, which is not queued, and the walk ends in `FAILED` with nothing
dispatched. -/
theorem C12_revision_breaks_floor :
    Option.map (fun p => (p.state_, p.last_step_index_sent_,
        p.feedback_state_.first_changeable_step_index)) admittedWalk =
      some (ACTIVE, -1, -1) ∧
    Option.map (fun p => (p.state_, p.last_step_index_sent_)) revisedWalk =
      some (ACTIVE, -2) ∧
    ¬ ((-1 : Int) ≤ -2) ∧
    Option.map (fun p => p.step_queue_.getStep (p.last_step_index_sent_ + 1)) revisedWalk =
      some none ∧
    Option.map (fun r => (r.1.state_, r.2))
        (revisedWalk.bind (tick initWalkToActive acceptAll)) =
      some (FAILED, []) := by
  decide

end vigir_step_control
